import Mathlib

/-!
Verification of the lux package manager's tree/lockfile operations against its
specification.  The Rust sources under `lux-lib` are shallowly embedded:
pure decision logic is translated into executable Lean functions, stateful
operations into explicit state-passing functions on a model of the lockfile
and the on-disk tree, and the effect ordering of asynchronous operations into
event traces.  Parts of the data model that live in modules not shipped with
this snapshot (the `package` and `lockfile` modules) are modelled from the
specification document and are marked as such in their doc comments.
-/

set_option maxRecDepth 4000

namespace Lux

/-! ## Core data model (spec section 3)

`PackageVersion`, `PackageVersionReq`, `LocalPackage`, `LocalPackageId` and the
`Lockfile` operations live in the `package` and `lockfile` modules, which are
not part of this source snapshot; they are modelled from the specification. -/

/-- Modelled from the spec: `PackageVersion` is parsed as
`<dotted numeric components> [ '-' <rockrev:int> ]`; ordering is lexicographic
on the dotted components with the rockrev breaking ties. -/
structure Version where
  comps : List Nat
  rev : Nat
deriving DecidableEq, Repr

/-- Lexicographic comparison of dotted numeric version components
(spec section 3, PackageVersion ordering). -/
def compsLt : List Nat → List Nat → Bool
  | [], [] => false
  | [], _ :: _ => true
  | _ :: _, [] => false
  | a :: as, b :: bs => a < b || (a == b && compsLt as bs)

/-- Modelled from the spec: version ordering is lexicographic on the dotted
components, with the rockrev breaking ties (higher rockrev is newer). -/
def Version.lt (a b : Version) : Bool :=
  compsLt a.comps b.comps || (a.comps == b.comps && a.rev < b.rev)

/-- Modelled from the spec: a `PackageVersionReq` is a set of comparator
clauses; here represented by an optional inclusive lower bound and an optional
exclusive upper bound on the dotted components (covering the forms
`>= 1.0`, `< 2.0` and `>= 1.0, < 2.0` of spec section 3). -/
structure VersionReq where
  lower : Option (List Nat)
  upper : Option (List Nat)
deriving DecidableEq, Repr

/-- Whether a concrete version satisfies a requirement. -/
def VersionReq.matches (r : VersionReq) (v : Version) : Bool :=
  (match r.lower with
   | none => true
   | some lo => !compsLt v.comps lo) &&
  (match r.upper with
   | none => true
   | some hi => compsLt v.comps hi)

/-- Modelled from the spec: `PackageReq` is `(name, PackageVersionReq)`
(spec section 3). -/
structure PackageReq where
  name : String
  versionReq : VersionReq
deriving DecidableEq, Repr

/-- Modelled from the spec: `req.matches(spec)` — the name is equal and the
concrete version satisfies the version requirement (spec 4.A). -/
def PackageReq.matchesPkg (r : PackageReq) (name : String) (v : Version) : Bool :=
  r.name == name && r.versionReq.matches v

/-- Modelled from the spec: a `LocalPackage` is
`(id, spec, constraint, pinned, opt, source, ...)`; the fields that feed the
content-addressed id are kept here (`opt` is independent and not part of the
id). -/
structure LocalPackage where
  name : String
  version : Version
  constraint : VersionReq
  pinned : Bool
  opt : Bool
  source : String
deriving DecidableEq, Repr

/-- Modelled from the spec: `id` is the content hash of
`(name, version, constraint, pinned, source)` and equal inputs yield equal
ids; no two rocks share an id by construction of the hash, so the hash is
modelled as the tuple itself. -/
structure PackageId where
  name : String
  version : Version
  constraint : VersionReq
  pinned : Bool
  source : String
deriving DecidableEq, Repr

/-- The content-addressed id of a local package (spec invariant 2:
`hash(name, version, constraint, pinned, source) == id`). -/
def LocalPackage.id (p : LocalPackage) : PackageId :=
  ⟨p.name, p.version, p.constraint, p.pinned, p.source⟩

/-- Insert a key/value pair into an association list of rocks, replacing the
entry with the same id if one exists and appending otherwise. -/
def addRock (p : LocalPackage) : List (PackageId × LocalPackage) → List (PackageId × LocalPackage)
  | [] => [(p.id, p)]
  | (k, q) :: rest => if k = p.id then (k, p) :: rest else (k, q) :: addRock p rest

/-- Insert an id into a list of ids if it is not already present. -/
def insertId (l : List PackageId) (x : PackageId) : List PackageId :=
  if x ∈ l then l else l ++ [x]

/-- Modelled from the spec: a `Lockfile` sub-lock is an ordered mapping from
`LocalPackageId` to `LocalPackage` plus an entrypoint set
(spec section 3, Lockfile). -/
structure Lockfile where
  rocks : List (PackageId × LocalPackage)
  entrypoints : List PackageId
deriving DecidableEq, Repr

/-- Modelled from the spec: `get(id) -> Option<LocalPackage>` (spec 4.D). -/
def Lockfile.get (lf : Lockfile) (id : PackageId) : Option LocalPackage :=
  (lf.rocks.find? (fun e => e.1 = id)).map (fun e => e.2)

/-- Modelled from the spec: `add(pkg)` records the package under its id
(spec 4.D). -/
def Lockfile.add (lf : Lockfile) (p : LocalPackage) : Lockfile :=
  { lf with rocks := addRock p lf.rocks }

/-- Modelled from the spec: `add_entrypoint(pkg)` records the package and
marks its id as an entrypoint (spec 4.D). -/
def Lockfile.addEntrypoint (lf : Lockfile) (p : LocalPackage) : Lockfile :=
  { rocks := addRock p lf.rocks, entrypoints := insertId lf.entrypoints p.id }

/-- Modelled from the spec: `remove_by_id(id)` drops the rock and its
entrypoint mark (spec 4.D together with invariant 1, which requires every
entrypoint id to be present). -/
def Lockfile.removeById (lf : Lockfile) (id : PackageId) : Lockfile :=
  { rocks := lf.rocks.filter (fun e => e.1 ≠ id),
    entrypoints := lf.entrypoints.filter (fun e => e ≠ id) }

/-- Modelled from the spec: `is_entrypoint(id)` (spec 4.D). -/
def Lockfile.isEntrypoint (lf : Lockfile) (id : PackageId) : Bool :=
  decide (id ∈ lf.entrypoints)

/-- A lockfile is well formed when every rock is recorded under its own
content-addressed id (spec invariant 2, which holds by construction of the
hash). -/
def Lockfile.WF (lf : Lockfile) : Prop :=
  ∀ e ∈ lf.rocks, e.2.id = e.1

instance (lf : Lockfile) : Decidable lf.WF := by
  unfold Lockfile.WF; infer_instance

/-! ## Claim C1: effect ordering of `Remove`
(`lux-lib/src/operations/uninstall.rs`, `remove` and `remove_package`)

`remove` first awaits the concurrent `remove_package` tasks, each of which
deletes the package's on-disk directories, and only then removes the given
ids from the lockfile in a single `map_then_flush`.  The effect order is
embedded as an event trace. -/

/-- An observable effect of `remove`: deletion of one package's on-disk
directories (`remove_package`), or the single lockfile flush that removes the
given ids (`map_then_flush` in `remove`). -/
inductive RemoveEvent where
  | removeDir (id : PackageId)
  | lockfileFlush (ids : List PackageId)
deriving DecidableEq, Repr

/-- The effect trace of `remove` (uninstall.rs lines 76-109): the directories
of the packages found in the lockfile are deleted first (all `remove_package`
tasks are awaited), and the lockfile flush removing every requested id
happens afterwards. -/
def removeTrace (lf : Lockfile) (packageIds : List PackageId) : List RemoveEvent :=
  ((packageIds.filter (fun id => (lf.get id).isSome)).map RemoveEvent.removeDir)
    ++ [RemoveEvent.lockfileFlush packageIds]

/-- The lockfile resulting from `remove`: `remove_by_id` applied for every
requested id in the single flush. -/
def removeResultLockfile (lf : Lockfile) (packageIds : List PackageId) : Lockfile :=
  packageIds.foldl Lockfile.removeById lf

/-- The property claimed by C1, stated over the effect trace of `remove`:
every directory removal is sequenced after the lockfile update that marks the
package removed. -/
def DirRemovalAfterLockfileUpdate (tr : List RemoveEvent) : Prop :=
  ∀ i j x ids, tr.get? i = some (RemoveEvent.removeDir x) →
    tr.get? j = some (RemoveEvent.lockfileFlush ids) → x ∈ ids → j < i

/-- A concrete installed package used as input for counterexamples and
witnesses. -/
def examplePackage : LocalPackage :=
  { name := "foo"
    version := { comps := [1, 0, 0], rev := 1 }
    constraint := { lower := some [1, 0], upper := none }
    pinned := false
    opt := false
    source := "https://luarocks.org/foo-1.0.0-1.src.rock" }

/-- A lockfile containing just `examplePackage`. -/
def exampleLockfile : Lockfile :=
  { rocks := [(examplePackage.id, examplePackage)]
    entrypoints := [examplePackage.id] }

/-- The empty lockfile. -/
def emptyLockfile : Lockfile :=
  { rocks := [], entrypoints := [] }

/-! ## Claim C2: rust-mlua backend failure handling
(`lux-lib/src/build/rust_mlua.rs`, `RustMluaBuildSpec::run` and `cleanup`) -/

/-- Outcome of running `cargo build` in `RustMluaBuildSpec::run`:
it succeeded, it ran but exited non-zero (carrying captured stdout/stderr),
or it could not be spawned at all. -/
inductive CargoResult where
  | ok
  | toolFailure (stdout stderr : String)
  | ioError (msg : String)
deriving DecidableEq, Repr

/-- The typed error of the rust-mlua backend (rust_mlua.rs, `RustError`):
`CargoBuild` carries the tool's stdout and stderr; `RustBuild` wraps an io
error and carries neither. -/
inductive RustError where
  | cargoBuild (stdout stderr : String)
  | rustBuild (msg : String)
deriving DecidableEq, Repr

/-- Result of `RustMluaBuildSpec::run` together with whether `cleanup`
removed the `RockLayout` root directory. -/
structure RunOutcome where
  result : Except RustError Unit
  rockLayoutRemoved : Bool
deriving Repr

/-- `RustMluaBuildSpec::run` (rust_mlua.rs lines 31-86): a non-zero `cargo
build` returns `RustError::CargoBuild` with the captured stdout/stderr and
does not call `cleanup`; a spawn failure returns `RustError::RustBuild`
without `cleanup`; an error in `install_rust_libs` or `install_lua_libs`
calls `cleanup` (which removes `output_paths.rock_path`) and returns
`RustError::RustBuild`. -/
def rustMluaRun (cargo : CargoResult)
    (installRustLibsError installLuaLibsError : Option String) : RunOutcome :=
  match cargo with
  | CargoResult.toolFailure out err =>
      { result := Except.error (RustError.cargoBuild out err), rockLayoutRemoved := false }
  | CargoResult.ioError msg =>
      { result := Except.error (RustError.rustBuild msg), rockLayoutRemoved := false }
  | CargoResult.ok =>
      match installRustLibsError with
      | some msg =>
          { result := Except.error (RustError.rustBuild msg), rockLayoutRemoved := true }
      | none =>
          match installLuaLibsError with
          | some msg =>
              { result := Except.error (RustError.rustBuild msg), rockLayoutRemoved := true }
          | none => { result := Except.ok (), rockLayoutRemoved := false }

/-- The property claimed by C2 for the rust-mlua backend: whenever the
backend fails, the partially populated `RockLayout` root is removed and the
reported error carries the invoked tool's stdout and stderr. -/
def BackendFailureCleansUpAndReportsOutput : Prop :=
  ∀ cargo installRustLibsError installLuaLibsError e,
    (rustMluaRun cargo installRustLibsError installLuaLibsError).result = Except.error e →
    (rustMluaRun cargo installRustLibsError installLuaLibsError).rockLayoutRemoved = true ∧
    ∃ out err, e = RustError.cargoBuild out err

/-! ## Claims C6 and C10: `set_pinned_state`
(`lux-lib/src/operations/pin.rs`, lines 43-99)

The on-disk tree is modelled as an association list from a package's
content-addressed id (which determines `tree.root_for`) to the contents of
its root directory. -/

/-- The typed error of `set_pinned_state` (pin.rs, `PinError`). -/
inductive PinError where
  | packageNotFound (id : PackageId)
  | pinStateUnchanged (pinState : Bool)
  | pinStateConflict (pinState : Bool)
  | notAnEntrypoint
deriving DecidableEq, Repr

/-- Look up the contents of the package root directory for an id
(`tree.root_for`); a missing directory reads as empty. -/
def fsGet (fs : List (PackageId × List String)) (id : PackageId) : List String :=
  ((fs.find? (fun e => e.1 = id)).map (fun e => e.2)).getD []

/-- Replace (or create) the contents of the package root directory for an
id. -/
def fsSet : List (PackageId × List String) → PackageId → List String → List (PackageId × List String)
  | [], id, c => [(id, c)]
  | (k, v) :: rest, id, c => if k = id then (k, c) :: rest else (k, v) :: fsSet rest id c

/-- The state `set_pinned_state` operates on: the tree's lockfile and the
package root directories of the tree. -/
structure PinState where
  lockfile : Lockfile
  dirs : List (PackageId × List String)
deriving DecidableEq, Repr

/-- `set_pinned_state` (pin.rs lines 43-99), as a state transition returning
the (possibly unchanged) state and an optional error:
1. the package is looked up by id (`PackageNotFound` if absent);
2. it must be an entrypoint (`NotAnEntrypoint`);
3. the requested pin state must differ from the current one
   (`PinStateUnchanged`);
4. the items of the old package root are read, the id is recomputed under the
   new pinned state, and a rock already recorded under the recomputed id is a
   `PinStateConflict`;
5. otherwise the old root's contents are moved into the root for the new id
   and, in one lockfile flush, the old entry is removed and the new package
   is added as an entrypoint. -/
def setPinnedState (st : PinState) (packageId : PackageId) (pin : Bool) :
    PinState × Option PinError :=
  match st.lockfile.get packageId with
  | none => (st, some (PinError.packageNotFound packageId))
  | some package =>
    if st.lockfile.isEntrypoint package.id = false then
      (st, some PinError.notAnEntrypoint)
    else if pin = package.pinned then
      (st, some (PinError.pinStateUnchanged package.pinned))
    else
      let items := fsGet st.dirs package.id
      let newPackage : LocalPackage := { package with pinned := pin }
      if (st.lockfile.get newPackage.id).isSome = true then
        (st, some (PinError.pinStateConflict pin))
      else
        ({ lockfile := (st.lockfile.removeById package.id).addEntrypoint newPackage,
           dirs := fsSet (fsSet st.dirs package.id []) newPackage.id
                     (fsGet (fsSet st.dirs package.id []) newPackage.id ++ items) },
         none)

/-- A concrete tree state containing `examplePackage` (unpinned, an
entrypoint) with some files in its root directory. -/
def examplePinState : PinState :=
  { lockfile := exampleLockfile
    dirs := [(examplePackage.id, ["foo.lua", "foo.so"])] }

/-- `examplePackage` with the pinned flag set. -/
def examplePackagePinned : LocalPackage :=
  { examplePackage with pinned := true }

/-- A tree state containing both the unpinned and the pinned variant of
`examplePackage`, so that re-pinning collides. -/
def exampleConflictPinState : PinState :=
  { lockfile :=
      { rocks := [(examplePackage.id, examplePackage),
                  (examplePackagePinned.id, examplePackagePinned)]
        entrypoints := [examplePackage.id, examplePackagePinned.id] }
    dirs := [(examplePackage.id, ["foo.lua"]), (examplePackagePinned.id, ["foo.lua"])] }

/-- The empty tree state. -/
def emptyPinState : PinState :=
  { lockfile := emptyLockfile, dirs := [] }

/-! ## Claim C8: build directory selection after unpacking
(`lux-lib/src/build/mod.rs`, `do_build` lines 377-409) -/

/-- Structural prefix test on character lists (Rust `str::starts_with` with a
string pattern: `a.starts_with(d)` holds iff `d` is a prefix of `a`). -/
def listIsPrefixOf : List Char → List Char → Bool
  | [], _ => true
  | _ :: _, [] => false
  | a :: as, b :: bs => a == b && listIsPrefixOf as bs

/-- `d.isPrefixOf a` as used in `do_build`:
`archive_name.starts_with(dir_name)`. -/
def strIsPrefixOf (p s : String) : Bool :=
  listIsPrefixOf p.data s.data

/-- The build directory chosen by `do_build`, relative to the unpack root. -/
inductive BuildDirChoice where
  | specified (dir : String)
  | subdir (dir : String)
  | root
deriving DecidableEq, Repr

/-- `do_build`'s build-directory selection (build/mod.rs lines 378-409): if
the rockspec's source specifies an `unpack_dir`, that directory is used;
otherwise, if the unpack root contains exactly one directory entry and the
archive name (from the rockspec or the source metadata) starts with that
directory's name, the build directory is that single directory; in every
other case the unpack root itself is used. -/
def buildDirChoice (unpackDir : Option String) (dirEntries : List String)
    (archiveName : Option String) : BuildDirChoice :=
  match unpackDir with
  | some d => BuildDirChoice.specified d
  | none =>
    match dirEntries, archiveName with
    | [d], some a =>
      if strIsPrefixOf d a = true then BuildDirChoice.subdir d else BuildDirChoice.root
    | _, _ => BuildDirChoice.root

/-! ## Claim C9: vendor directory scan
(`lux-lib/src/manifest/metadata_from_vendor_dir.rs`,
`manifest_from_vendor_dir`)

File names are modelled as character lists.  `PackageSpec::from_str` lives in
the `package` module, which is not part of this snapshot, and is modelled
from the spec. -/

/-- The recorded rock type of a vendor entry (`RemotePackageType`): entries
with extension `rock` are binary rocks, everything else is recorded as a
rockspec/source package. -/
inductive RockType where
  | rockspec
  | binary
deriving DecidableEq, Repr

/-- Split a character list at every occurrence of a separator character
(the result is always nonempty). -/
def splitChar (c : Char) : List Char → List (List Char)
  | [] => [[]]
  | x :: xs =>
    match splitChar c xs with
    | [] => [[]]
    | h :: t => if x = c then [] :: h :: t else (x :: h) :: t

/-- Numeric value of a decimal digit character. -/
def digitVal (c : Char) : Option Nat :=
  if c.isDigit then some (c.toNat - 48) else none

/-- Parse a nonempty decimal numeral. -/
def parseNat (s : List Char) : Option Nat :=
  if s.isEmpty then none
  else (s.mapM digitVal).map (fun ds => ds.foldl (fun acc d => 10 * acc + d) 0)

/-- Parse dotted numeric version components, e.g. `1.0.0`. -/
def parseDotted (s : List Char) : Option (List Nat) :=
  (splitChar '.' s).mapM parseNat

/-- Modelled from the spec: a `PackageVersion` is parsed as
`<dotted components> [ '-' <rockrev:int> ]` (spec section 3). -/
def parseVersion (s : List Char) : Option Version :=
  match splitChar '-' s with
  | [v] => (parseDotted v).map (fun comps => { comps := comps, rev := 0 })
  | [v, r] =>
    match parseDotted v, parseNat r with
    | some comps, some rev => some { comps := comps, rev := rev }
    | _, _ => none
  | _ => none

/-- Modelled from the spec: `PackageSpec::from_str`, the parser used by the
vendor scan.  The `package` module is not part of this snapshot; the spec
gives `name@ver` as the concrete text form (spec sections 3 and 4.A), and the
dashed `name-version` form is not a recognised text form (package names may
themselves contain `-`), which the repository's own test corroborates by
naming a dashed `foo-0.1.0-1` vendor directory `invalid_foo_dir`. -/
def packageSpecFromStr (s : List Char) : Option (String × Version) :=
  match splitChar '@' s with
  | [name, ver] =>
    if name.isEmpty then none
    else (parseVersion ver).map (fun v => (String.mk name, v))
  | _ => none

/-- The extension of a file name (Rust `Path::extension`): the part after
the last `.`, when the name contains one. -/
def pathExtension (s : List Char) : Option (List Char) :=
  let parts := splitChar '.' s
  if parts.length ≤ 1 then none else parts.getLast?

/-- Interleave a separator character between name components (inverse of
`splitChar`). -/
def joinChar (c : Char) : List (List Char) → List Char
  | [] => []
  | [x] => x
  | x :: y :: t => x ++ c :: joinChar c (y :: t)

/-- `set_extension("")`: remove the part after the last `.`, when the name
contains one. -/
def stripExtension (s : List Char) : List Char :=
  let parts := splitChar '.' s
  if parts.length ≤ 1 then s else joinChar '.' parts.dropLast

/-- A directory entry of the vendor directory as seen by the walk:
its file name and whether it is a file (as opposed to a directory). -/
structure VendorEntry where
  fileName : List Char
  isFile : Bool
deriving DecidableEq, Repr

/-- The per-entry logic of `manifest_from_vendor_dir`
(metadata_from_vendor_dir.rs lines 16-30): the rock type is `Binary` iff the
entry's extension is `rock`; for files the extension is stripped; the result
is parsed as a `PackageSpec`, and entries that do not parse are silently
ignored. -/
def scanVendorEntry (e : VendorEntry) : Option (String × Version × RockType) :=
  let ptype :=
    if pathExtension e.fileName = some ("rock".data) then RockType.binary
    else RockType.rockspec
  let base := if e.isFile then stripExtension e.fileName else e.fileName
  (packageSpecFromStr base).map (fun nv => (nv.1, nv.2, ptype))

/-- `manifest_from_vendor_dir` (metadata_from_vendor_dir.rs lines 11-38),
viewed as the list of `(name, version, rock_type)` manifest entries produced
by the scan. -/
def manifestFromVendorDir (entries : List VendorEntry) : List (String × Version × RockType) :=
  entries.filterMap scanVendorEntry

/-- A concrete vendor directory: a `name@ver` source directory, a
`name@ver.rock` binary rock, and a dashed `name-ver.rockspec` file. -/
def exampleVendorEntries : List VendorEntry :=
  [{ fileName := "foo@1.0.0-1".data, isFile := false },
   { fileName := "bar@2.0.0-2.rock".data, isFile := true },
   { fileName := "baz-1.0.0-1.rockspec".data, isFile := true }]

/-! ## Claim C7: remote package database
(`lux-lib/src/remote_package_db/mod.rs`, `PackageDB::from_config` lines
56-77 and `PackageDB::find` lines 80-119) -/

/-- The server configuration consulted by `PackageDB::from_config`: the
dev-enabled servers (`config.enabled_dev_servers()`, kept abstract), the
extra servers (`config.extra_servers()`), and the configured server
(`config.server()`, which is the explicit `--server` override when one was
given — the CLI passes `--server` to `ConfigBuilder::server` — and the
default server otherwise). -/
structure DBConfig where
  enabledDevServers : List String
  extraServers : List String
  server : String
deriving DecidableEq, Repr

/-- The order in which `PackageDB::from_config` (mod.rs lines 64-75) pushes
manifest sources: one per dev-enabled server first, then one per extra
server, and the configured server last. -/
def fromConfigServers (c : DBConfig) : List String :=
  c.enabledDevServers ++ c.extraServers ++ [c.server]

/-- The consultation order claimed by the spec (section 4.E, Ordering):
explicit `--server` override first, then `extra_servers`, then the
dev-enabled subset, then the default — with the configured server standing
in the override/default slot. -/
def claimedServerOrder (c : DBConfig) : List String :=
  [c.server] ++ c.extraServers ++ c.enabledDevServers

/-- One remote manifest source: its server URL and the packages its manifest
can resolve. -/
structure RemoteSource where
  url : String
  packages : List (String × Version)
deriving DecidableEq, Repr

/-- A single source's `find`: the first listed package matching the
requirement. -/
def sourceFind (s : RemoteSource) (req : PackageReq) : Option (String × Version) :=
  s.packages.find? (fun p => req.matchesPkg p.1 p.2)

/-- The unified package database (`PackageDB`): a list of remote manifests,
or a lockfile used as the source of truth (`Impl::Lock`). -/
inductive PackageDB where
  | remotes (sources : List RemoteSource)
  | lock (lf : Lockfile)
deriving Repr

/-- `PackageDB::from_config`: a remote-backed database whose sources are the
configured servers in `fromConfigServers` order, each resolving the packages
its manifest lists. -/
def mkFromConfig (c : DBConfig) (manifests : List (String × List (String × Version))) :
    PackageDB :=
  PackageDB.remotes
    ((fromConfigServers c).map (fun u => { url := u, packages := (manifests.lookup u).getD [] }))

/-- Modelled from the spec: `has_rock` on a lockfile-backed database answers
from the lockfile's rocks alone (the first rock matching the requirement). -/
def lockHasRock (lf : Lockfile) (req : PackageReq) : Option (String × Version) :=
  ((lf.rocks.map (fun e => e.2)).find?
      (fun p => req.matchesPkg p.name p.version)).map (fun p => (p.name, p.version))

/-- The iteration inside `PackageDB::find` for remote sources (mod.rs lines
87-104): consult each source in order and stop at the first that yields a
match.  The second component records the servers consulted (each source's
progress message), in order. -/
def findRemotes (req : PackageReq) : List RemoteSource → Option (String × Version) × List String
  | [] => (none, [])
  | s :: rest =>
    match sourceFind s req with
    | some p => (some p, [s.url])
    | none =>
      let r := findRemotes req rest
      (r.1, s.url :: r.2)

/-- `PackageDB::find` (mod.rs lines 80-119): remote-backed databases iterate
their sources, short-circuiting on the first match; a lockfile-backed
database answers from the lockfile alone and consults no remote server. -/
def dbFind (db : PackageDB) (req : PackageReq) : Option (String × Version) × List String :=
  match db with
  | PackageDB.remotes sources => findRemotes req sources
  | PackageDB.lock lf => (lockHasRock lf req, [])

/-- A concrete configuration with one dev-enabled server, one extra server
and a configured server. -/
def exampleDBConfig : DBConfig :=
  { enabledDevServers := ["https://luarocks.org/dev"]
    extraServers := ["https://extra.example.org"]
    server := "https://luarocks.org" }

/-- A concrete requirement matching any version of `foo`. -/
def exampleReq : PackageReq :=
  { name := "foo", versionReq := { lower := none, upper := none } }

/-! ## Claim C4: `do_build` with `NoForce` and install idempotence
(`lux-lib/src/build/mod.rs`, `do_build` lines 367-368)

`Install` itself (operations/install.rs) is not part of this snapshot; its
lockfile bookkeeping — record the built packages, marking entrypoints — is
modelled from the spec (section 4.I).  The tree state is its lockfile
together with the set of populated `RockLayout` roots. -/

/-- `BuildBehaviour` (build/mod.rs lines 162-168). -/
inductive BuildBehaviour where
  | noForce
  | force
deriving DecidableEq, Repr

/-- The tree as seen by `do_build`: its lockfile and the set of populated
package root directories (`RockLayout` roots, keyed by package id). -/
structure TreeState where
  lockfile : Lockfile
  dirs : List PackageId
deriving DecidableEq, Repr

/-- One entry of an install plan: the `LocalPackage` assembled by `do_build`
before the lockfile check (build/mod.rs lines 348-365: name and version from
the rockspec, constraint, pin and opt from the plan), the build behaviour,
and whether the package is installed as an entrypoint. -/
structure BuildInput where
  pkg : LocalPackage
  behaviour : BuildBehaviour
  entrypoint : Bool
deriving DecidableEq, Repr

/-- `do_build`'s lockfile check (build/mod.rs lines 367-368) together with
the build's effect on the tree: if the lockfile already contains a package
under the computed id and the behaviour is `NoForce`, the recorded
`LocalPackage` is returned and the tree is untouched; otherwise the package
is built, populating its `RockLayout` root, and the assembled package is
returned. -/
def doBuild (t : TreeState) (b : BuildInput) : TreeState × LocalPackage :=
  match t.lockfile.get b.pkg.id, b.behaviour with
  | some recorded, BuildBehaviour.noForce => (t, recorded)
  | _, _ => ({ t with dirs := insertId t.dirs b.pkg.id }, b.pkg)

/-- Modelled from the spec: the per-package step of `Install` (spec 4.I):
build, then record the returned package in the lockfile, marking it as an
entrypoint when installed as one. -/
def installPkg (t : TreeState) (b : BuildInput) : TreeState :=
  let r := doBuild t b
  { r.1 with
    lockfile :=
      if b.entrypoint then r.1.lockfile.addEntrypoint r.2 else r.1.lockfile.add r.2 }

/-- Modelled from the spec: `Install` over a resolved plan (spec 4.I). -/
def installPlan (t : TreeState) (plan : List BuildInput) : TreeState :=
  plan.foldl installPkg t

/-- A tree state is saturated for a plan entry when the entry's id is
recorded in the lockfile and, when the entry is an entrypoint install, the
id is marked as an entrypoint. -/
def Saturated (t : TreeState) (b : BuildInput) : Prop :=
  (∃ q, t.lockfile.get b.pkg.id = some q) ∧
  (b.entrypoint = true → t.lockfile.isEntrypoint b.pkg.id = true)

/-- An empty tree state. -/
def exampleTreeState : TreeState :=
  { lockfile := emptyLockfile, dirs := [] }

/-- A one-package install plan with `NoForce`. -/
def examplePlan : List BuildInput :=
  [{ pkg := examplePackage, behaviour := BuildBehaviour.noForce, entrypoint := true }]

/-! ## Claim C5: `Update` (`lux-lib/src/operations/update.rs`, `update`
lines 262-305 and `unpinned_packages` lines 307-314)

`has_update_with` and `into_package_req` live in the `package` module, which
is not part of this snapshot, and are modelled from the spec ("ask the DB if
a version satisfying the original constraint exists that is newer than the
current version", spec 4.I); `luanox.rs`'s `has_update` in this snapshot
realises the same filter (versions matching the constraint and greater than
the current version). -/

/-- Modelled from the spec (4.I), corroborated by `luanox.rs has_update`
(lines 162-169): the DB reports an update when some available version of the
package's name satisfies the constraint's version requirement and is newer
than the current version. -/
def hasUpdateWith (p : LocalPackage) (req : PackageReq)
    (db : List (String × List Version)) : Bool :=
  (((db.find? (fun e => e.1 == p.name)).map (fun e => e.2)).getD []).any
    (fun v => req.versionReq.matches v && p.version.lt v)

/-- Modelled from the spec: `package.to_package().into_package_req()` — the
requirement under which the DB is consulted carries the package's original
constraint (spec 4.I: "a version satisfying the original constraint"). -/
def intoPackageReq (p : LocalPackage) : PackageReq :=
  { name := p.name, versionReq := p.constraint }

/-- `unpinned_packages` (update.rs lines 307-314): the lockfile's packages
whose pinned state is `Unpinned`, each paired with its requirement. -/
def unpinnedPackages (lf : Lockfile) : List (LocalPackage × PackageReq) :=
  ((lf.rocks.map (fun e => e.2)).filter (fun p => p.pinned == false)).map
    (fun p => (p, intoPackageReq p))

/-- `is_included` (update.rs lines 229-239): when the user supplied
requirements, keep only packages matched by one of them. -/
def isIncluded (pr : LocalPackage × PackageReq)
    (packageReqs : Option (List PackageReq)) : Bool :=
  match packageReqs with
  | none => true
  | some reqs => reqs.any (fun req => req.matchesPkg pr.1.name pr.1.version)

/-- The candidate list of `update` (update.rs lines 270-284): the unpinned,
included packages for which `has_update_with` reports a newer matching
version (the code guards the pinned state a second time in the match arm). -/
def updatableOf (lf : Lockfile) (db : List (String × List Version))
    (packageReqs : Option (List PackageReq)) : List (LocalPackage × PackageReq) :=
  ((unpinnedPackages lf).filter (fun pr => isIncluded pr packageReqs)).filter
    (fun pr => hasUpdateWith pr.1 pr.2 db && (pr.1.pinned == false))

/-- The observable result of `update`: the ids it removes and the install
specs it reinstalls (`mk_install_spec`, update.rs lines 316-329: the
requirement, with the entry type read from the lockfile). -/
structure UpdateResult where
  removed : List PackageId
  reinstalled : List (PackageReq × Bool)
deriving DecidableEq, Repr

/-- `update` (update.rs lines 262-305): when no candidate remains the result
is empty; otherwise every candidate is removed (by id) and reinstalled from
its requirement. -/
def updateOp (lf : Lockfile) (db : List (String × List Version))
    (packageReqs : Option (List PackageReq)) : UpdateResult :=
  let updatable := updatableOf lf db packageReqs
  if updatable.isEmpty then { removed := [], reinstalled := [] }
  else
    { removed := updatable.map (fun pr => pr.1.id)
      reinstalled := updatable.map (fun pr => (pr.2, lf.isEntrypoint pr.1.id)) }

/-! ## Claim C3: `Sync` (`lux-lib/src/operations/sync.rs`, `do_sync` lines
121-246)

Modelled for an invocation without extra package requirements
(`args.packages = None`, so `package_sync_spec` is the empty default, as in
the spec's own sync example).  The state holds two trees: the tree being
synced (`args.tree`) and the user tree (`config.user_tree(..)`), because the
`Remove` builder that `do_sync` constructs is given no tree and therefore
falls back to the user tree (uninstall.rs lines 67-71). -/

/-- `remove` (uninstall.rs lines 76-109) as a tree-state transition: the
directories of the requested ids that are present in the lockfile are
deleted, then every requested id is dropped from the lockfile. -/
def removeFromTree (t : TreeState) (ids : List PackageId) : TreeState :=
  { lockfile := removeResultLockfile t.lockfile ids,
    dirs := t.dirs.filter
      (fun d => !((ids.filter (fun id => (t.lockfile.get id).isSome)).contains d)) }

/-- The two trees `do_sync` touches: the synced tree (`args.tree`) and the
user tree (the default tree of the `Remove` builder). -/
structure SyncState where
  tree : TreeState
  userTree : TreeState
deriving DecidableEq, Repr

/-- The `SyncReport` of `do_sync` (sync.rs lines 101-105). -/
structure SyncReport where
  added : List LocalPackage
  removed : List LocalPackage
deriving DecidableEq, Repr

/-- `do_sync` (sync.rs lines 121-246) with no extra package requirements:
packages of the project sub-lock absent from the tree lockfile are installed
into the tree with `BuildBehaviour::Force` (entry type from the project
lock) and reported as added; packages of the tree lockfile absent from the
project sub-lock are reported as removed and their ids passed to a `Remove`
built without a tree — which therefore acts on the user tree; finally the
tree lockfile is flushed with `lockfile.sync(project sub-lock)`, modelled
from the spec (4.D) as replacing the sub-lock. -/
def doSync (st : SyncState) (projectSubLock : Lockfile) : SyncState × SyncReport :=
  let toAdd := projectSubLock.rocks.filter (fun e => (st.tree.lockfile.get e.1).isNone)
  let removed := st.tree.lockfile.rocks.filter (fun e => (projectSubLock.get e.1).isNone)
  let treeAfterInstall := installPlan st.tree (toAdd.map (fun e =>
    { pkg := e.2, behaviour := BuildBehaviour.force,
      entrypoint := projectSubLock.isEntrypoint e.2.id }))
  let userAfterRemove := removeFromTree st.userTree (removed.map (fun e => e.1))
  let finalTree : TreeState := { lockfile := projectSubLock, dirs := treeAfterInstall.dirs }
  (⟨finalTree, userAfterRemove⟩,
   { added := toAdd.map (fun e => e.2), removed := removed.map (fun e => e.2) })

/-- The package `a@1-1` of the spec's sync example. -/
def syncPackageA : LocalPackage :=
  { name := "a", version := { comps := [1], rev := 1 }
    constraint := { lower := none, upper := none }
    pinned := false, opt := false, source := "srcA" }

/-- The package `b@1-1` of the spec's sync example. -/
def syncPackageB : LocalPackage :=
  { name := "b", version := { comps := [1], rev := 1 }
    constraint := { lower := none, upper := none }
    pinned := false, opt := false, source := "srcB" }

/-- A project tree holding `a@1` and `b@1` (lockfile entries and on-disk
directories). -/
def exampleSyncTree : TreeState :=
  { lockfile := { rocks := [(syncPackageA.id, syncPackageA), (syncPackageB.id, syncPackageB)]
                  entrypoints := [syncPackageA.id, syncPackageB.id] }
    dirs := [syncPackageA.id, syncPackageB.id] }

/-- A user tree distinct from `exampleSyncTree` and holding nothing. -/
def exampleUserTree : TreeState :=
  { lockfile := emptyLockfile, dirs := [] }

/-- A project sub-lock holding only `a@1`. -/
def exampleProjectSubLock : Lockfile :=
  { rocks := [(syncPackageA.id, syncPackageA)], entrypoints := [syncPackageA.id] }

/-- A pinned `examplePackage` at version 1.0, with 2.0 available remotely. -/
def examplePinnedLockfile : Lockfile :=
  { rocks := [(examplePackagePinned.id, examplePackagePinned)]
    entrypoints := [examplePackagePinned.id] }

/-- A remote database offering `foo` 2.0.0-1, newer than the installed
1.0.0-1. -/
def exampleUpdateDB : List (String × List Version) :=
  [("foo", [{ comps := [2, 0, 0], rev := 1 }])]

end Lux

namespace Lux

/-! ## Theorems -/

/-- Helper: looking up `x` after filtering out key `y` drops exactly the
entries with key `y`. -/
theorem find?_filter_ne_key (y x : PackageId) :
    ∀ l : List (PackageId × LocalPackage),
      ((l.filter (fun e => e.1 ≠ y)).find? (fun e => e.1 = x)) =
        if x = y then none else l.find? (fun e => e.1 = x)
  | [] => by simp
  | e :: rest => by
    rw [List.filter_cons]
    by_cases hy : e.1 = y
    · rw [if_neg (by simp [hy]), find?_filter_ne_key y x rest]
      by_cases hx : x = y
      · simp [hx]
      · have hex : ¬ e.1 = x := fun h => hx (h ▸ hy)
        rw [if_neg hx, if_neg hx, List.find?_cons_of_neg _ (by simpa using hex)]
    · rw [if_pos (by simpa using hy)]
      by_cases hx : e.1 = x
      · have hxy : ¬ x = y := fun h => hy (hx.trans h)
        rw [List.find?_cons_of_pos _ (by simpa using hx), if_neg hxy,
          List.find?_cons_of_pos _ (by simpa using hx)]
      · rw [List.find?_cons_of_neg _ (by simpa using hx), find?_filter_ne_key y x rest]
        by_cases hxy : x = y
        · simp [hxy]
        · rw [if_neg hxy, if_neg hxy, List.find?_cons_of_neg _ (by simpa using hx)]

/-- Helper: `remove_by_id y` removes exactly the entry with id `y` from the
lockfile. -/
theorem get_removeById (lf : Lockfile) (y x : PackageId) :
    (lf.removeById y).get x = if x = y then none else lf.get x := by
  unfold Lockfile.get Lockfile.removeById
  simp only [find?_filter_ne_key]
  by_cases h : x = y <;> simp [h]

/-- Helper: an absent id stays absent under any `remove_by_id`. -/
theorem get_foldl_removeById_none (ids : List PackageId) (lf : Lockfile)
    (x : PackageId) (h : lf.get x = none) :
    (ids.foldl Lockfile.removeById lf).get x = none := by
  induction ids generalizing lf with
  | nil => exact h
  | cons y rest ih =>
    apply ih
    rw [get_removeById]
    by_cases hxy : x = y <;> simp [hxy, h]

/-- Helper: folding `remove_by_id` over a list of ids removes every id in the
list. -/
theorem get_foldl_removeById_mem (ids : List PackageId) (lf : Lockfile)
    (x : PackageId) (hx : x ∈ ids) :
    (ids.foldl Lockfile.removeById lf).get x = none := by
  induction ids generalizing lf with
  | nil => cases hx
  | cons y rest ih =>
    rcases List.mem_cons.mp hx with h | h
    · subst h
      rw [List.foldl_cons]
      apply get_foldl_removeById_none
      simp [get_removeById]
    · rw [List.foldl_cons]
      exact ih _ h

/-- Claim C1 is false on the code: in `remove`, the directory removal of an
installed package is sequenced before (not after) the lockfile flush that
marks it removed.  Concretely, for a lockfile containing `examplePackage`,
the trace is `[removeDir id, lockfileFlush [id]]`, so the flush (index 1)
does not precede the directory removal (index 0). -/
theorem remove_dir_after_lockfile_update_false :
    ¬ DirRemovalAfterLockfileUpdate (removeTrace exampleLockfile [examplePackage.id]) := by
  intro h
  have h01 := h 0 1 examplePackage.id [examplePackage.id] (by decide) (by decide) (by decide)
  omega

/-- Claim C1, amended to the ordering the code realises: every invocation of
`remove` deletes the on-disk directories of the requested packages that are
present in the lockfile first, and the single lockfile flush that removes all
requested ids is sequenced after every directory removal (it is the final
event of the trace); the flushed lockfile no longer contains any requested
id. -/
theorem remove_dirs_before_lockfile_update :
    ∀ (lf : Lockfile) (ids : List PackageId),
      (∃ dirEvents,
        removeTrace lf ids = dirEvents ++ [RemoveEvent.lockfileFlush ids] ∧
        ∀ e ∈ dirEvents, ∃ x, e = RemoveEvent.removeDir x ∧ x ∈ ids ∧ (lf.get x).isSome) ∧
      ∀ x ∈ ids, (removeResultLockfile lf ids).get x = none := by
  intro lf ids
  refine ⟨⟨(ids.filter (fun id => (lf.get id).isSome)).map RemoveEvent.removeDir, rfl, ?_⟩, ?_⟩
  · intro e he
    rcases List.mem_map.mp he with ⟨x, hx, rfl⟩
    rcases List.mem_filter.mp hx with ⟨hxi, hxs⟩
    exact ⟨x, rfl, hxi, hxs⟩
  · intro x hx
    exact get_foldl_removeById_mem ids lf x hx

/-- Witness for the amended C1 theorem at a concrete input: removing
`examplePackage` from a lockfile containing it yields a trace whose final
event is the lockfile flush, and the flushed lockfile no longer contains the
id. -/
theorem remove_dirs_before_lockfile_update_witness :
    (removeResultLockfile exampleLockfile [examplePackage.id]).get examplePackage.id = none :=
  (remove_dirs_before_lockfile_update exampleLockfile [examplePackage.id]).2
    examplePackage.id (List.mem_singleton.mpr rfl)

/-- Claim C2 is false on the code: when `cargo build` exits non-zero, the
rust-mlua backend returns the typed `RustError::CargoBuild` error carrying
stdout and stderr but does not call `cleanup`, leaving the partially
populated `RockLayout` root in place. -/
theorem backend_failure_cleans_up_false :
    ¬ BackendFailureCleansUpAndReportsOutput := by
  intro h
  have hc := h (CargoResult.toolFailure "compiling foo" "error: linker failed")
    none none (RustError.cargoBuild "compiling foo" "error: linker failed") rfl
  simp [rustMluaRun] at hc

/-- Claim C2, amended to what the code does: the rust-mlua backend removes
the `RockLayout` root exactly when `cargo build` succeeded and one of the
post-build artifact-installation steps failed; a non-zero `cargo build` is
reported as the typed `RustError::CargoBuild` variant carrying the tool's
stdout and stderr, but without removing the `RockLayout` root. -/
theorem rust_mlua_cleanup_only_on_install_failure :
    ∀ cargo installRustLibsError installLuaLibsError,
      ((rustMluaRun cargo installRustLibsError installLuaLibsError).rockLayoutRemoved = true ↔
        cargo = CargoResult.ok ∧
          (installRustLibsError.isSome ∨ installLuaLibsError.isSome)) ∧
      (∀ out err,
        (rustMluaRun (CargoResult.toolFailure out err)
            installRustLibsError installLuaLibsError).result =
          Except.error (RustError.cargoBuild out err)) := by
  intro cargo ir il
  constructor
  · cases cargo <;> cases ir <;> cases il <;> simp [rustMluaRun]
  · intro out err
    rfl

/-- Witness for the amended C2 theorem at a concrete input: a failed
`install_rust_libs` step after a successful `cargo build` removes the
`RockLayout` root. -/
theorem rust_mlua_cleanup_only_on_install_failure_witness :
    (rustMluaRun CargoResult.ok (some "copy failed") none).rockLayoutRemoved = true :=
  ((rust_mlua_cleanup_only_on_install_failure CargoResult.ok
      (some "copy failed") none).1).mpr ⟨rfl, Or.inl rfl⟩

/-- Helper: looking up a value after `addRock` returns the added package at
its id and is unchanged elsewhere. -/
theorem find?_addRock (p : LocalPackage) (x : PackageId) :
    ∀ l : List (PackageId × LocalPackage),
      ((addRock p l).find? (fun e => e.1 = x)).map (fun e => e.2) =
        if x = p.id then some p
        else (l.find? (fun e => e.1 = x)).map (fun e => e.2)
  | [] => by
    by_cases hx : x = p.id
    · simp [addRock, List.find?, hx]
    · simp [addRock, List.find?, hx, Ne.symm hx]
  | (k, q) :: rest => by
    by_cases hk : k = p.id
    · rw [addRock, if_pos hk]
      by_cases hx : x = p.id
      · rw [if_pos hx, List.find?_cons_of_pos _ (by simpa using (hk.trans hx.symm))]
        rfl
      · have hkx : ¬ k = x := fun h => hx (h.symm.trans hk)
        rw [if_neg hx, List.find?_cons_of_neg _ (by simpa using hkx),
          List.find?_cons_of_neg _ (by simpa using hkx)]
    · rw [addRock, if_neg hk]
      by_cases hkx : k = x
      · rw [List.find?_cons_of_pos _ (by simpa using hkx),
          List.find?_cons_of_pos _ (by simpa using hkx)]
        have hx : ¬ x = p.id := fun h => hk (hkx.trans h)
        rw [if_neg hx]
      · rw [List.find?_cons_of_neg _ (by simpa using hkx),
          List.find?_cons_of_neg _ (by simpa using hkx)]
        exact find?_addRock p x rest

/-- Helper: `get` after `add_entrypoint`. -/
theorem get_addEntrypoint (lf : Lockfile) (p : LocalPackage) (x : PackageId) :
    (lf.addEntrypoint p).get x = if x = p.id then some p else lf.get x := by
  unfold Lockfile.get Lockfile.addEntrypoint
  exact find?_addRock p x lf.rocks

/-- Helper: `get` after `add`. -/
theorem get_add (lf : Lockfile) (p : LocalPackage) (x : PackageId) :
    (lf.add p).get x = if x = p.id then some p else lf.get x := by
  unfold Lockfile.get Lockfile.add
  exact find?_addRock p x lf.rocks

/-- Helper: membership in `insertId`. -/
theorem mem_insertId (l : List PackageId) (x y : PackageId) :
    y ∈ insertId l x ↔ y ∈ l ∨ y = x := by
  unfold insertId
  by_cases h : x ∈ l
  · simp only [if_pos h]
    constructor
    · exact Or.inl
    · rintro (hy | rfl)
      · exact hy
      · exact h
  · simp [if_neg h]

/-- Helper: `add_entrypoint` marks the added package's id as an
entrypoint. -/
theorem isEntrypoint_addEntrypoint (lf : Lockfile) (p : LocalPackage) :
    (lf.addEntrypoint p).isEntrypoint p.id = true := by
  unfold Lockfile.isEntrypoint Lockfile.addEntrypoint
  simp [mem_insertId]

/-- Helper: entrypoint marks survive `add_entrypoint`. -/
theorem isEntrypoint_addEntrypoint_of (lf : Lockfile) (p : LocalPackage) (x : PackageId)
    (h : lf.isEntrypoint x = true) :
    (lf.addEntrypoint p).isEntrypoint x = true := by
  unfold Lockfile.isEntrypoint Lockfile.addEntrypoint
  unfold Lockfile.isEntrypoint at h
  simp only [decide_eq_true_eq] at h ⊢
  exact (mem_insertId _ _ _).mpr (Or.inl h)

/-- Helper: reading a root directory just written by `fsSet`. -/
theorem fsGet_fsSet_self (id : PackageId) (c : List String) :
    ∀ fs, fsGet (fsSet fs id c) id = c
  | [] => by simp [fsSet, fsGet, List.find?]
  | (k, v) :: rest => by
    by_cases hk : k = id
    · rw [fsSet, if_pos hk]
      unfold fsGet
      rw [List.find?_cons_of_pos _ (by simpa using hk)]
      rfl
    · rw [fsSet, if_neg hk]
      unfold fsGet
      rw [List.find?_cons_of_neg _ (by simpa using hk)]
      exact fsGet_fsSet_self id c rest

/-- Helper: reading a root directory other than the one written by
`fsSet`. -/
theorem fsGet_fsSet_ne (id x : PackageId) (c : List String) (hx : x ≠ id) :
    ∀ fs, fsGet (fsSet fs id c) x = fsGet fs x
  | [] => by
    unfold fsSet fsGet
    rw [List.find?_cons_of_neg _ (by simpa using fun h => hx h.symm)]
  | (k, v) :: rest => by
    by_cases hk : k = id
    · rw [fsSet, if_pos hk]
      have hkx : ¬ k = x := fun h => hx (h.symm.trans hk)
      unfold fsGet
      rw [List.find?_cons_of_neg _ (by simpa using hkx),
        List.find?_cons_of_neg _ (by simpa using hkx)]
    · rw [fsSet, if_neg hk]
      by_cases hkx : k = x
      · unfold fsGet
        rw [List.find?_cons_of_pos _ (by simpa using hkx),
          List.find?_cons_of_pos _ (by simpa using hkx)]
      · unfold fsGet
        rw [List.find?_cons_of_neg _ (by simpa using hkx),
          List.find?_cons_of_neg _ (by simpa using hkx)]
        exact fsGet_fsSet_ne id x c hx rest

/-- Helper: the recomputed id under a different pinned state differs from the
original id. -/
theorem id_ne_of_pin_ne (package : LocalPackage) (pin : Bool)
    (h : ¬ pin = package.pinned) :
    LocalPackage.id { package with pinned := pin } ≠ package.id := by
  intro hid
  exact h (congrArg PackageId.pinned hid)

/-- Claim C6: `set_pinned_state` recomputes the package's id under the new
pinned state; if the lockfile already contains a rock with the recomputed id
it fails with `PinStateConflict` leaving the state unchanged; otherwise it
succeeds, the root directory for the new id receives the old root's contents,
the old root is emptied, and the flushed lockfile has the old entry removed
and the new package recorded as an entrypoint. -/
theorem set_pinned_state_conflict_or_move (st : PinState) (packageId : PackageId)
    (pin : Bool) (package : LocalPackage)
    (h1 : st.lockfile.get packageId = some package)
    (h2 : st.lockfile.isEntrypoint package.id = true)
    (h3 : ¬ pin = package.pinned) :
    ((st.lockfile.get (LocalPackage.id { package with pinned := pin })).isSome = true →
      setPinnedState st packageId pin = (st, some (PinError.pinStateConflict pin))) ∧
    (st.lockfile.get (LocalPackage.id { package with pinned := pin }) = none →
      (setPinnedState st packageId pin).2 = none ∧
      (setPinnedState st packageId pin).1.lockfile =
        (st.lockfile.removeById package.id).addEntrypoint { package with pinned := pin } ∧
      (setPinnedState st packageId pin).1.lockfile.get
          (LocalPackage.id { package with pinned := pin }) =
        some { package with pinned := pin } ∧
      (setPinnedState st packageId pin).1.lockfile.get package.id = none ∧
      (setPinnedState st packageId pin).1.lockfile.isEntrypoint
          (LocalPackage.id { package with pinned := pin }) = true ∧
      fsGet (setPinnedState st packageId pin).1.dirs
          (LocalPackage.id { package with pinned := pin }) =
        fsGet st.dirs (LocalPackage.id { package with pinned := pin }) ++
          fsGet st.dirs package.id ∧
      fsGet (setPinnedState st packageId pin).1.dirs package.id = []) := by
  have hne : LocalPackage.id { package with pinned := pin } ≠ package.id :=
    id_ne_of_pin_ne package pin h3
  have hbody : setPinnedState st packageId pin =
      (if (st.lockfile.get (LocalPackage.id { package with pinned := pin })).isSome = true then
        (st, some (PinError.pinStateConflict pin))
      else
        ({ lockfile := (st.lockfile.removeById package.id).addEntrypoint
              { package with pinned := pin },
           dirs := fsSet (fsSet st.dirs package.id [])
                     (LocalPackage.id { package with pinned := pin })
                     (fsGet (fsSet st.dirs package.id [])
                        (LocalPackage.id { package with pinned := pin }) ++
                      fsGet st.dirs package.id) },
         none)) := by
    simp only [setPinnedState, h1]
    rw [if_neg (by simp [h2]), if_neg h3]
  rw [hbody]
  constructor
  · intro hconf
    rw [if_pos hconf]
  · intro habs
    rw [if_neg (by simp [habs])]
    refine ⟨rfl, rfl, ?_, ?_, ?_, ?_, ?_⟩
    · rw [get_addEntrypoint, if_pos rfl]
    · rw [get_addEntrypoint, if_neg (fun h => hne h.symm), get_removeById, if_pos rfl]
    · exact isEntrypoint_addEntrypoint _ _
    · rw [fsGet_fsSet_self, fsGet_fsSet_ne _ _ _ hne]
    · rw [fsGet_fsSet_ne _ _ _ (fun h => hne h.symm), fsGet_fsSet_self]

/-- Witness for the C6 theorem at a concrete input: pinning the installed,
unpinned entrypoint `examplePackage` succeeds (moving its directory and
updating the lockfile), and no error is reported. -/
theorem set_pinned_state_conflict_or_move_witness :
    (setPinnedState examplePinState examplePackage.id true).2 = none :=
  ((set_pinned_state_conflict_or_move examplePinState examplePackage.id true examplePackage
      (by decide) (by decide) (by decide)).2 (by decide)).1

/-- Claim C10: `set_pinned_state` rejects, leaving the state unchanged,
(i) an id that is absent from the lockfile (`PackageNotFound`),
(ii) a package that is not an entrypoint (`NotAnEntrypoint`), and
(iii) a requested pin state equal to the current one (`PinStateUnchanged`
is an error, not a no-op). -/
theorem set_pinned_state_preconditions (st : PinState) (packageId : PackageId) (pin : Bool) :
    (st.lockfile.get packageId = none →
      setPinnedState st packageId pin = (st, some (PinError.packageNotFound packageId))) ∧
    (∀ package, st.lockfile.get packageId = some package →
      st.lockfile.isEntrypoint package.id = false →
      setPinnedState st packageId pin = (st, some PinError.notAnEntrypoint)) ∧
    (∀ package, st.lockfile.get packageId = some package →
      pin = package.pinned →
      st.lockfile.isEntrypoint package.id = true →
      setPinnedState st packageId pin = (st, some (PinError.pinStateUnchanged package.pinned))) := by
  refine ⟨?_, ?_, ?_⟩
  · intro h
    simp only [setPinnedState, h]
  · intro package h1 h2
    simp only [setPinnedState, h1, h2]
    rw [if_pos trivial]
  · intro package h1 h3 h2
    simp only [setPinnedState, h1]
    rw [if_neg (by simp [h2]), if_pos h3]

/-- Witness for the C10 theorem at a concrete input: pinning an id that the
lockfile does not contain fails with `PackageNotFound` and leaves the state
unchanged. -/
theorem set_pinned_state_preconditions_witness :
    setPinnedState emptyPinState examplePackage.id false =
      (emptyPinState, some (PinError.packageNotFound examplePackage.id)) :=
  (set_pinned_state_preconditions emptyPinState examplePackage.id false).1 (by decide)

/-- Claim C8: when the rockspec specifies no unpack dir, the build directory
is the single root directory of the archive precisely when exactly one
directory entry exists and its name is a prefix of the archive name; in
every other case (zero or several directory entries, no archive name, or a
name mismatch) the unpack root itself is used. -/
theorem build_dir_single_dir_flatten (entries : List String) (archiveName : Option String) :
    (∀ d, buildDirChoice none entries archiveName = BuildDirChoice.subdir d ↔
      (entries = [d] ∧ ∃ a, archiveName = some a ∧ strIsPrefixOf d a = true)) ∧
    (buildDirChoice none entries archiveName = BuildDirChoice.root ↔
      ¬ ∃ d a, entries = [d] ∧ archiveName = some a ∧ strIsPrefixOf d a = true) := by
  cases entries with
  | nil => cases archiveName <;> simp [buildDirChoice]
  | cons d rest =>
    cases rest with
    | nil =>
      cases archiveName with
      | none => simp [buildDirChoice]
      | some a =>
        by_cases hp : strIsPrefixOf d a = true
        · constructor
          · intro x
            simp only [buildDirChoice, if_pos hp]
            constructor
            · intro h
              cases h
              exact ⟨rfl, a, rfl, hp⟩
            · rintro ⟨h, -⟩
              rw [List.cons.injEq] at h
              rw [h.1]
          · simp [buildDirChoice, hp]
        · constructor
          · intro x
            simp only [buildDirChoice, if_neg hp]
            constructor
            · intro h
              cases h
            · rintro ⟨h, a2, ha, hpre⟩
              injection ha with ha1
              subst ha1
              injection h with h1 h2
              subst h1
              exact absurd hpre hp
          · simp only [buildDirChoice, if_neg hp]
            constructor
            · rintro - ⟨d2, a2, hd, ha, hpre⟩
              injection ha with ha1
              subst ha1
              injection hd with h1 h2
              subst h1
              exact absurd hpre hp
            · intro _
              trivial
    | cons e rest2 => cases archiveName <;> simp [buildDirChoice]

/-- Claim C9 is false on the code: a `<name>-<ver>.rockspec` file in the
vendor directory produces no manifest entry, because after stripping the
extension the dashed `foo-1.0.0-1` does not parse as a `PackageSpec`
(only the `name@ver` form does), and unparsable entries are silently
ignored.  Concretely, scanning a vendor directory holding only
`foo-1.0.0-1.rockspec` yields empty metadata, which does not contain
`(foo, 1.0.0-1)`. -/
theorem vendor_scan_dashed_rockspec_missing :
    manifestFromVendorDir [{ fileName := "foo-1.0.0-1.rockspec".data, isFile := true }] = [] ∧
    ¬ ("foo", ({ comps := [1, 0, 0], rev := 1 } : Version), RockType.rockspec) ∈
        manifestFromVendorDir [{ fileName := "foo-1.0.0-1.rockspec".data, isFile := true }] := by
  constructor
  · decide
  · decide

/-- Claim C9, amended to what the scan records: every vendor entry whose
(extension-stripped, for files) name parses in the `name@ver` form produces a
manifest entry — `name@ver` directories (and any non-`.rock` entry) as a
Rockspec package and `name@ver.rock` files as a Binary package — while
entries that do not parse in that form, in particular dashed
`<name>-<ver>.rockspec` files, produce no entry at all. -/
theorem vendor_scan_records_at_forms (entries : List VendorEntry) (e : VendorEntry)
    (n : String) (v : Version) (he : e ∈ entries) :
    (¬ pathExtension e.fileName = some ("rock".data) → e.isFile = false →
      packageSpecFromStr e.fileName = some (n, v) →
      (n, v, RockType.rockspec) ∈ manifestFromVendorDir entries) ∧
    (pathExtension e.fileName = some ("rock".data) → e.isFile = true →
      packageSpecFromStr (stripExtension e.fileName) = some (n, v) →
      (n, v, RockType.binary) ∈ manifestFromVendorDir entries) ∧
    (e.isFile = true → packageSpecFromStr (stripExtension e.fileName) = none →
      scanVendorEntry e = none) := by
  refine ⟨?_, ?_, ?_⟩
  · intro hext hdir hparse
    refine List.mem_filterMap.mpr ⟨e, he, ?_⟩
    simp only [scanVendorEntry, if_neg hext, hdir, Bool.false_eq_true, if_false, hparse]
    rfl
  · intro hext hfile hparse
    refine List.mem_filterMap.mpr ⟨e, he, ?_⟩
    simp only [scanVendorEntry, if_pos hext, hfile, if_true, hparse]
    rfl
  · intro hfile hparse
    simp only [scanVendorEntry, hfile, if_true, hparse]
    rfl

/-- Witness for the amended C9 theorem at a concrete input: in
`exampleVendorEntries`, the source directory `foo@1.0.0-1` is recorded as a
Rockspec package. -/
theorem vendor_scan_records_at_forms_witness :
    ("foo", ({ comps := [1, 0, 0], rev := 1 } : Version), RockType.rockspec) ∈
      manifestFromVendorDir exampleVendorEntries :=
  (vendor_scan_records_at_forms exampleVendorEntries
      { fileName := "foo@1.0.0-1".data, isFile := false }
      "foo" { comps := [1, 0, 0], rev := 1 } (by decide)).1 (by decide) rfl (by decide)

/-- Helper: when no source yields a match, `find` consults every source. -/
theorem findRemotes_consulted_of_none (req : PackageReq) :
    ∀ sources : List RemoteSource, (findRemotes req sources).1 = none →
      (findRemotes req sources).2 = sources.map (fun s => s.url)
  | [] => by intro _; rfl
  | s :: rest => by
    intro h
    cases hs : sourceFind s req with
    | some p =>
      rw [findRemotes, hs] at h
      cases h
    | none =>
      rw [findRemotes, hs] at h ⊢
      show s.url :: (findRemotes req rest).2 = s.url :: rest.map (fun s => s.url)
      rw [findRemotes_consulted_of_none req rest h]

/-- Helper: `findRemotes` returns the first source's match in list order
(short-circuit semantics, expressed through `List.findSome?`). -/
theorem findRemotes_eq_findSome (req : PackageReq) :
    ∀ sources : List RemoteSource,
      (findRemotes req sources).1 =
        (sources.map (fun s => sourceFind s req)).findSome? id
  | [] => rfl
  | s :: rest => by
    rw [List.map_cons, List.findSome?_cons]
    cases hs : sourceFind s req with
    | some p => simp [findRemotes, hs]
    | none => simp [findRemotes, hs, findRemotes_eq_findSome req rest]

/-- Helper: the urls of the sources built from the configured servers are
the servers themselves. -/
theorem map_url_map_mk (f : String → List (String × Version)) :
    ∀ l : List String,
      (l.map (fun u => ({ url := u, packages := f u } : RemoteSource))).map
          (fun s => s.url) = l
  | [] => rfl
  | u :: t => by rw [List.map_cons, List.map_cons, map_url_map_mk f t]

/-- Claim C7 is false on the code: `PackageDB::from_config` consults the
dev-enabled servers first, then the extra servers, and the configured server
last — not the order the spec claims (`--server` override, extra servers,
dev subset, default).  Concretely, with one dev server, one extra server and
a configured server, a `find` that matches nowhere consults
`[dev, extra, configured]`, which differs from the claimed order
`[configured, extra, dev]`. -/
theorem package_db_consult_order_counterexample :
    (dbFind (mkFromConfig exampleDBConfig []) exampleReq).2 =
      ["https://luarocks.org/dev", "https://extra.example.org", "https://luarocks.org"] ∧
    (dbFind (mkFromConfig exampleDBConfig []) exampleReq).2 ≠
      claimedServerOrder exampleDBConfig := by
  constructor
  · decide
  · decide

/-- Claim C7, amended to the order the code realises: a `PackageDB` built
from the configuration consults the dev-enabled servers first, then the
extra servers, then the configured server (the `--server` override or the
default) last; `find` iterates the sources in that order and short-circuits
on the first source that yields a match; a lockfile-backed `PackageDB`
answers from the lockfile alone and consults no remote server. -/
theorem package_db_find_order (c : DBConfig)
    (manifests : List (String × List (String × Version))) (req : PackageReq) :
    ((dbFind (mkFromConfig c manifests) req).1 = none →
      (dbFind (mkFromConfig c manifests) req).2 =
        c.enabledDevServers ++ c.extraServers ++ [c.server]) ∧
    (∀ sources, (findRemotes req sources).1 =
      (sources.map (fun s => sourceFind s req)).findSome? id) ∧
    (∀ lf, dbFind (PackageDB.lock lf) req = (lockHasRock lf req, [])) := by
  refine ⟨?_, findRemotes_eq_findSome req, fun lf => rfl⟩
  intro h
  have h2 := findRemotes_consulted_of_none req
    ((fromConfigServers c).map
      (fun u => ({ url := u, packages := (manifests.lookup u).getD [] } : RemoteSource))) h
  show (findRemotes req _).2 = _
  rw [h2, map_url_map_mk (fun u => (manifests.lookup u).getD []) (fromConfigServers c)]
  rfl

/-- Witness for the amended C7 theorem at a concrete input: with no manifest
matching the request, `find` consults the dev server, the extra server and
the configured server, in that order. -/
theorem package_db_find_order_witness :
    (dbFind (mkFromConfig exampleDBConfig []) exampleReq).2 =
      exampleDBConfig.enabledDevServers ++ exampleDBConfig.extraServers ++
        [exampleDBConfig.server] :=
  (package_db_find_order exampleDBConfig [] exampleReq).1 (by decide)

/-- Helper: in a well-formed lockfile, the package found under an id has
that id. -/
theorem get_WF (lf : Lockfile) (hwf : lf.WF) (x : PackageId) (p : LocalPackage)
    (h : lf.get x = some p) : p.id = x := by
  unfold Lockfile.get at h
  cases hf : lf.rocks.find? (fun e => e.1 = x) with
  | none => rw [hf] at h; cases h
  | some e =>
    rw [hf] at h
    injection h with h2
    have hpred : e.1 = x := by simpa using List.find?_some hf
    have hmem : e ∈ lf.rocks := List.mem_of_find?_eq_some hf
    have hid := hwf e hmem
    rw [← h2, hid]
    exact hpred

/-- Helper: a successful `get` pins down the found association pair. -/
theorem get_eq_some_find? (lf : Lockfile) (x : PackageId) (q : LocalPackage)
    (h : lf.get x = some q) :
    lf.rocks.find? (fun e => e.1 = x) = some (x, q) := by
  unfold Lockfile.get at h
  cases hf : lf.rocks.find? (fun e => e.1 = x) with
  | none => rw [hf] at h; cases h
  | some e =>
    rw [hf] at h
    injection h with h2
    have hpred : e.1 = x := by simpa using List.find?_some hf
    obtain ⟨a, v⟩ := e
    cases hpred
    cases h2
    rfl

/-- Helper: `addRock` preserves well-formedness of the rocks list. -/
theorem WF_addRock (p : LocalPackage) :
    ∀ l : List (PackageId × LocalPackage),
      (∀ e ∈ l, e.2.id = e.1) → ∀ e ∈ addRock p l, e.2.id = e.1
  | [] => by
    intro _ e he
    rw [addRock] at he
    rcases List.mem_singleton.mp he with rfl
    rfl
  | (k, q) :: rest => by
    intro hl e he
    by_cases hk : k = p.id
    · rw [addRock, if_pos hk] at he
      rcases List.mem_cons.mp he with rfl | hrest
      · exact hk.symm
      · exact hl _ (List.mem_cons_of_mem _ hrest)
    · rw [addRock, if_neg hk] at he
      rcases List.mem_cons.mp he with rfl | hrest
      · exact hl _ (List.mem_cons_self _ _)
      · exact WF_addRock p rest (fun e he => hl _ (List.mem_cons_of_mem _ he)) _ hrest

/-- Helper: `addRock` of an entry `get` already returns is the identity. -/
theorem addRock_of_find? (q : LocalPackage) :
    ∀ l : List (PackageId × LocalPackage),
      l.find? (fun e => e.1 = q.id) = some (q.id, q) → addRock q l = l
  | [] => by intro h; cases h
  | (k, v) :: rest => by
    intro h
    by_cases hk : k = q.id
    · rw [List.find?_cons_of_pos _ (by simpa using hk)] at h
      injection h with h1
      cases h1
      rw [addRock, if_pos rfl]
    · rw [List.find?_cons_of_neg _ (by simpa using hk)] at h
      rw [addRock, if_neg hk, addRock_of_find? q rest h]

/-- Helper: `do_build` never modifies the lockfile. -/
theorem doBuild_lockfile (t : TreeState) (b : BuildInput) :
    (doBuild t b).1.lockfile = t.lockfile := by
  unfold doBuild
  cases t.lockfile.get b.pkg.id <;> cases b.behaviour <;> rfl

/-- Helper: the lockfile after one install step. -/
theorem installPkg_lockfile (t : TreeState) (b : BuildInput) :
    (installPkg t b).lockfile =
      (if b.entrypoint = true then t.lockfile.addEntrypoint (doBuild t b).2
       else t.lockfile.add (doBuild t b).2) := by
  show (if b.entrypoint = true then (doBuild t b).1.lockfile.addEntrypoint (doBuild t b).2
        else (doBuild t b).1.lockfile.add (doBuild t b).2) = _
  rw [doBuild_lockfile]

/-- Helper: lockfile lookup after one install step. -/
theorem get_installPkg (t : TreeState) (b : BuildInput) (x : PackageId) :
    (installPkg t b).lockfile.get x =
      if x = (doBuild t b).2.id then some (doBuild t b).2 else t.lockfile.get x := by
  rw [installPkg_lockfile]
  by_cases hb : b.entrypoint = true
  · rw [if_pos hb, get_addEntrypoint]
  · rw [if_neg hb, get_add]

/-- Helper: one install step preserves entrypoint marks. -/
theorem isEntrypoint_installPkg_of (t : TreeState) (b : BuildInput) (x : PackageId)
    (h : t.lockfile.isEntrypoint x = true) :
    (installPkg t b).lockfile.isEntrypoint x = true := by
  rw [installPkg_lockfile]
  by_cases hb : b.entrypoint = true
  · rw [if_pos hb]
    exact isEntrypoint_addEntrypoint_of _ _ _ h
  · rw [if_neg hb]
    exact h

/-- Helper: one install step preserves lockfile well-formedness. -/
theorem WF_installPkg (t : TreeState) (b : BuildInput) (h : t.lockfile.WF) :
    (installPkg t b).lockfile.WF := by
  have hid : (doBuild t b).2.id = b.pkg.id := by
    unfold doBuild
    cases hg : t.lockfile.get b.pkg.id with
    | none => cases b.behaviour <;> rfl
    | some recorded =>
      cases b.behaviour with
      | noForce => exact get_WF t.lockfile h _ _ hg
      | force => rfl
  rw [installPkg_lockfile]
  by_cases hb : b.entrypoint = true
  · rw [if_pos hb]
    exact fun e he => WF_addRock _ t.lockfile.rocks h e he
  · rw [if_neg hb]
    exact fun e he => WF_addRock _ t.lockfile.rocks h e he

/-- Helper: the package returned by `do_build` has the computed id (using
well-formedness for the recorded-package branch). -/
theorem doBuild_id (t : TreeState) (b : BuildInput) (hwf : t.lockfile.WF) :
    (doBuild t b).2.id = b.pkg.id := by
  unfold doBuild
  cases hg : t.lockfile.get b.pkg.id with
  | none => cases b.behaviour <;> rfl
  | some recorded =>
    cases b.behaviour with
    | noForce => exact get_WF t.lockfile hwf _ _ hg
    | force => rfl

/-- Helper: one install step saturates its own plan entry. -/
theorem sat_installPkg_self (t : TreeState) (b : BuildInput) (hwf : t.lockfile.WF) :
    Saturated (installPkg t b) b := by
  have hid := doBuild_id t b hwf
  constructor
  · exact ⟨(doBuild t b).2, by rw [get_installPkg, if_pos hid.symm]⟩
  · intro hb
    rw [installPkg_lockfile, if_pos hb, ← hid]
    exact isEntrypoint_addEntrypoint _ _

/-- Helper: an install step preserves saturation of any plan entry. -/
theorem sat_mono_installPkg (t : TreeState) (b' b : BuildInput)
    (h : Saturated t b) : Saturated (installPkg t b') b := by
  obtain ⟨⟨q, hq⟩, hep⟩ := h
  constructor
  · by_cases hx : b.pkg.id = (doBuild t b').2.id
    · exact ⟨(doBuild t b').2, by rw [get_installPkg, if_pos hx]⟩
    · exact ⟨q, by rw [get_installPkg, if_neg hx]; exact hq⟩
  · intro hb
    exact isEntrypoint_installPkg_of t b' _ (hep hb)

/-- Helper: saturation survives installing a whole plan. -/
theorem sat_installPlan_mono (b : BuildInput) :
    ∀ (plan : List BuildInput) (t : TreeState),
      Saturated t b → Saturated (installPlan t plan) b
  | [], _ => fun h => h
  | b' :: rest, t => fun h =>
    sat_installPlan_mono b rest (installPkg t b') (sat_mono_installPkg t b' b h)

/-- Helper: installing a plan preserves lockfile well-formedness. -/
theorem WF_installPlan :
    ∀ (plan : List BuildInput) (t : TreeState),
      t.lockfile.WF → (installPlan t plan).lockfile.WF
  | [], _ => fun h => h
  | b :: rest, t => fun h => WF_installPlan rest (installPkg t b) (WF_installPkg t b h)

/-- Helper: after installing a plan, every plan entry is saturated. -/
theorem sat_all_installPlan :
    ∀ (plan : List BuildInput) (t : TreeState), t.lockfile.WF →
      ∀ b ∈ plan, Saturated (installPlan t plan) b
  | [], _ => fun _ b hb => absurd hb (List.not_mem_nil b)
  | b' :: rest, t => fun hwf b hb => by
    rcases List.mem_cons.mp hb with rfl | hr
    · exact sat_installPlan_mono b rest (installPkg t b) (sat_installPkg_self t b hwf)
    · exact sat_all_installPlan rest (installPkg t b') (WF_installPkg t b' hwf) b hr

/-- Helper: a `NoForce` install step on a saturated, well-formed tree is the
identity. -/
theorem installPkg_fix (t : TreeState) (b : BuildInput) (hwf : t.lockfile.WF)
    (hsat : Saturated t b) (hnf : b.behaviour = BuildBehaviour.noForce) :
    installPkg t b = t := by
  obtain ⟨⟨q, hq⟩, hep⟩ := hsat
  have hqid : q.id = b.pkg.id := get_WF _ hwf _ _ hq
  have hdb : doBuild t b = (t, q) := by
    unfold doBuild
    rw [hq, hnf]
  have hfind : t.lockfile.rocks.find? (fun e => e.1 = q.id) = some (q.id, q) := by
    rw [hqid]
    exact get_eq_some_find? t.lockfile b.pkg.id q hq
  have hrocks : addRock q t.lockfile.rocks = t.lockfile.rocks :=
    addRock_of_find? q t.lockfile.rocks hfind
  show ({ (doBuild t b).1 with
    lockfile :=
      if b.entrypoint = true then (doBuild t b).1.lockfile.addEntrypoint (doBuild t b).2
      else (doBuild t b).1.lockfile.add (doBuild t b).2 } : TreeState) = t
  rw [hdb]
  by_cases hb : b.entrypoint = true
  · rw [if_pos hb]
    have hmem : q.id ∈ t.lockfile.entrypoints := by
      rw [hqid]
      exact of_decide_eq_true (hep hb)
    have heps : insertId t.lockfile.entrypoints q.id = t.lockfile.entrypoints := by
      rw [insertId, if_pos hmem]
    show ({ t with
      lockfile := { rocks := addRock q t.lockfile.rocks,
                    entrypoints := insertId t.lockfile.entrypoints q.id } } : TreeState) = t
    rw [hrocks, heps]
  · rw [if_neg hb]
    show ({ t with
      lockfile := { rocks := addRock q t.lockfile.rocks,
                    entrypoints := t.lockfile.entrypoints } } : TreeState) = t
    rw [hrocks]

/-- Helper: installing an all-`NoForce` plan over a saturated, well-formed
tree is the identity. -/
theorem installPlan_fix :
    ∀ (plan : List BuildInput) (t : TreeState), t.lockfile.WF →
      (∀ b ∈ plan, Saturated t b) →
      (∀ b ∈ plan, b.behaviour = BuildBehaviour.noForce) →
      installPlan t plan = t
  | [], _ => fun _ _ _ => rfl
  | b :: rest, t => fun hwf hsat hnf => by
    have hfix : installPkg t b = t :=
      installPkg_fix t b hwf (hsat b (List.mem_cons_self b rest))
        (hnf b (List.mem_cons_self b rest))
    show installPlan (installPkg t b) rest = t
    rw [hfix]
    exact installPlan_fix rest t hwf
      (fun b hb => hsat b (List.mem_cons_of_mem _ hb))
      (fun b hb => hnf b (List.mem_cons_of_mem _ hb))

/-- Claim C4: with `NoForce`, `do_build` returns the already-recorded
`LocalPackage` without touching the tree whenever the lockfile already
contains the computed id; consequently, over a well-formed lockfile,
installing the same all-`NoForce` plan a second time is a no-op
(`Install(plan) ∘ Install(plan) = Install(plan)`). -/
theorem install_noforce_idempotent (t : TreeState) (plan : List BuildInput)
    (hwf : t.lockfile.WF)
    (hnf : ∀ b ∈ plan, b.behaviour = BuildBehaviour.noForce) :
    (∀ b p, b.behaviour = BuildBehaviour.noForce →
      t.lockfile.get b.pkg.id = some p → doBuild t b = (t, p)) ∧
    installPlan (installPlan t plan) plan = installPlan t plan := by
  constructor
  · intro b p hb hp
    unfold doBuild
    rw [hp, hb]
  · exact installPlan_fix plan (installPlan t plan) (WF_installPlan plan t hwf)
      (sat_all_installPlan plan t hwf) hnf

/-- Witness for the C4 theorem at a concrete input: installing the
one-package `NoForce` plan twice over the empty tree equals installing it
once. -/
theorem install_noforce_idempotent_witness :
    installPlan (installPlan exampleTreeState examplePlan) examplePlan =
      installPlan exampleTreeState examplePlan :=
  (install_noforce_idempotent exampleTreeState examplePlan (by decide) (by decide)).2

/-- Helper: membership in `unpinned_packages`. -/
theorem mem_unpinnedPackages (lf : Lockfile) (pr : LocalPackage × PackageReq) :
    pr ∈ unpinnedPackages lf ↔
      pr.1 ∈ lf.rocks.map (fun e => e.2) ∧ pr.1.pinned = false ∧
        pr.2 = intoPackageReq pr.1 := by
  unfold unpinnedPackages
  constructor
  · intro h
    rcases List.mem_map.mp h with ⟨p, hp, rfl⟩
    rcases List.mem_filter.mp hp with ⟨hmem, hpin⟩
    exact ⟨hmem, by simpa using hpin, rfl⟩
  · intro h
    obtain ⟨a, r⟩ := pr
    obtain ⟨hmem, hpin, hpr⟩ := h
    rw [show r = intoPackageReq a from hpr]
    exact List.mem_map.mpr ⟨a, List.mem_filter.mpr ⟨hmem, by simpa using hpin⟩, rfl⟩

/-- Helper: membership in `update`'s candidate list. -/
theorem mem_updatableOf (lf : Lockfile) (db : List (String × List Version))
    (packageReqs : Option (List PackageReq)) (pr : LocalPackage × PackageReq) :
    pr ∈ updatableOf lf db packageReqs ↔
      pr.1 ∈ lf.rocks.map (fun e => e.2) ∧ pr.2 = intoPackageReq pr.1 ∧
        pr.1.pinned = false ∧ isIncluded pr packageReqs = true ∧
        hasUpdateWith pr.1 pr.2 db = true := by
  unfold updatableOf
  constructor
  · intro h
    rcases List.mem_filter.mp h with ⟨h1, hguard⟩
    rcases List.mem_filter.mp h1 with ⟨h0, hinc⟩
    rcases (mem_unpinnedPackages lf pr).mp h0 with ⟨hmem, hpin, hpr⟩
    have hupd : hasUpdateWith pr.1 pr.2 db = true := by
      simp only [Bool.and_eq_true] at hguard
      exact hguard.1
    exact ⟨hmem, hpr, hpin, hinc, hupd⟩
  · rintro ⟨hmem, hpr, hpin, hinc, hupd⟩
    refine List.mem_filter.mpr
      ⟨List.mem_filter.mpr ⟨(mem_unpinnedPackages lf pr).mpr ⟨hmem, hpin, hpr⟩, hinc⟩, ?_⟩
    simp [hupd, hpin]

/-- Helper: membership through the emptiness guard of `update`. -/
theorem mem_if_isEmpty {α β : Type} (l : List α) (f : α → β) (x : β) :
    (x ∈ (if l.isEmpty = true then ([] : List β) else l.map f)) ↔ x ∈ l.map f := by
  cases l <;> simp

/-- Helper: the removed ids of `update`. -/
theorem updateOp_removed (lf : Lockfile) (db : List (String × List Version))
    (packageReqs : Option (List PackageReq)) :
    (updateOp lf db packageReqs).removed =
      if (updatableOf lf db packageReqs).isEmpty = true then []
      else (updatableOf lf db packageReqs).map (fun pr => pr.1.id) := by
  unfold updateOp
  by_cases h : (updatableOf lf db packageReqs).isEmpty = true <;> simp [h]

/-- Helper: the reinstall specs of `update`. -/
theorem updateOp_reinstalled (lf : Lockfile) (db : List (String × List Version))
    (packageReqs : Option (List PackageReq)) :
    (updateOp lf db packageReqs).reinstalled =
      if (updatableOf lf db packageReqs).isEmpty = true then []
      else (updatableOf lf db packageReqs).map
        (fun pr => (pr.2, lf.isEntrypoint pr.1.id)) := by
  unfold updateOp
  by_cases h : (updatableOf lf db packageReqs).isEmpty = true <;> simp [h]

/-- Claim C5: `update` removes and reinstalls exactly the unpinned (and,
when a subset was supplied, included) installed packages for which the DB
reports a version satisfying the original constraint that is newer than the
current version; a pinned package is never removed or reinstalled; and the
result is empty precisely when no unpinned included package has such an
update — in particular when only a pinned package has a newer version. -/
theorem update_unpinned_with_newer (lf : Lockfile) (db : List (String × List Version))
    (packageReqs : Option (List PackageReq)) :
    (∀ id, id ∈ (updateOp lf db packageReqs).removed ↔
      ∃ p, p ∈ lf.rocks.map (fun e => e.2) ∧ p.id = id ∧ p.pinned = false ∧
        isIncluded (p, intoPackageReq p) packageReqs = true ∧
        hasUpdateWith p (intoPackageReq p) db = true) ∧
    (∀ p, p ∈ lf.rocks.map (fun e => e.2) → p.pinned = true →
      p.id ∉ (updateOp lf db packageReqs).removed) ∧
    (∀ rb ∈ (updateOp lf db packageReqs).reinstalled,
      ∃ p, p ∈ lf.rocks.map (fun e => e.2) ∧ p.pinned = false ∧
        rb.1 = intoPackageReq p) ∧
    ((updateOp lf db packageReqs).removed = [] ∧
        (updateOp lf db packageReqs).reinstalled = [] ↔
      ∀ p, p ∈ lf.rocks.map (fun e => e.2) → p.pinned = false →
        isIncluded (p, intoPackageReq p) packageReqs = true →
        hasUpdateWith p (intoPackageReq p) db = false) := by
  have hrem : ∀ id, id ∈ (updateOp lf db packageReqs).removed ↔
      ∃ p, p ∈ lf.rocks.map (fun e => e.2) ∧ p.id = id ∧ p.pinned = false ∧
        isIncluded (p, intoPackageReq p) packageReqs = true ∧
        hasUpdateWith p (intoPackageReq p) db = true := by
    intro id
    rw [updateOp_removed, mem_if_isEmpty]
    constructor
    · intro h
      rcases List.mem_map.mp h with ⟨pr, hpr, hid⟩
      rcases (mem_updatableOf lf db packageReqs pr).mp hpr with
        ⟨hmem, hpr2, hpin, hinc, hupd⟩
      refine ⟨pr.1, hmem, hid, hpin, ?_, ?_⟩
      · have hpair : (pr.1, intoPackageReq pr.1) = pr := by
          rw [← hpr2]
        rw [hpair]
        exact hinc
      · rw [← hpr2]
        exact hupd
    · rintro ⟨p, hmem, hid, hpin, hinc, hupd⟩
      refine List.mem_map.mpr ⟨(p, intoPackageReq p), ?_, hid⟩
      exact (mem_updatableOf lf db packageReqs (p, intoPackageReq p)).mpr
        ⟨hmem, rfl, hpin, hinc, hupd⟩
  refine ⟨hrem, ?_, ?_, ?_⟩
  · intro p hmem hpin hcontra
    rcases (hrem p.id).mp hcontra with ⟨q, -, hqid, hqpin, -, -⟩
    have hqq : q.pinned = p.pinned := congrArg PackageId.pinned hqid
    rw [hqpin, hpin] at hqq
    exact Bool.noConfusion hqq
  · intro rb hrb
    rw [updateOp_reinstalled, mem_if_isEmpty] at hrb
    rcases List.mem_map.mp hrb with ⟨pr, hpr, hrb2⟩
    rcases (mem_updatableOf lf db packageReqs pr).mp hpr with
      ⟨hmem, hpr2, hpin, -, -⟩
    exact ⟨pr.1, hmem, hpin, by rw [← hrb2, ← hpr2]⟩
  · constructor
    · rintro ⟨hremnil, -⟩ p hmem hpin hinc
      by_contra hupd
      rw [Bool.not_eq_false] at hupd
      have : p.id ∈ (updateOp lf db packageReqs).removed :=
        (hrem p.id).mpr ⟨p, hmem, rfl, hpin, hinc, hupd⟩
      rw [hremnil] at this
      cases this
    · intro hall
      have hnil : updatableOf lf db packageReqs = [] := by
        apply List.eq_nil_iff_forall_not_mem.mpr
        intro pr hpr
        rcases (mem_updatableOf lf db packageReqs pr).mp hpr with
          ⟨hmem, hpr2, hpin, hinc, hupd⟩
        have hpair : (pr.1, intoPackageReq pr.1) = pr := by rw [← hpr2]
        have := hall pr.1 hmem hpin (by rw [hpair]; exact hinc)
        rw [← hpr2] at this
        rw [this] at hupd
        cases hupd
      rw [updateOp_removed, updateOp_reinstalled, hnil]
      exact ⟨rfl, rfl⟩

/-- Witness for the C5 theorem at a concrete input: with `foo@1.0.0-1`
pinned and `foo@2.0.0-1` available, `update` reports nothing to do. -/
theorem update_unpinned_with_newer_witness :
    (updateOp examplePinnedLockfile exampleUpdateDB none).removed = [] ∧
    (updateOp examplePinnedLockfile exampleUpdateDB none).reinstalled = [] :=
  (update_unpinned_with_newer examplePinnedLockfile exampleUpdateDB none).2.2.2.mpr
    (by decide)

/-- Claim C3 at the failing input (the spec's own sync example, run against
a synced tree distinct from the user tree): syncing a tree holding
`{a@1, b@1}` with a project sub-lock holding `{a@1}` aligns the tree
lockfile with the project sub-lock, reports `b@1` removed (and nothing
added) and leaves `a@1` untouched — but `b@1`'s directory is still present
in the synced tree, because the `Remove` that `do_sync` builds is given no
tree and deletes from the (here unchanged) user tree instead. -/
theorem sync_removed_package_directory_remains :
    (doSync ⟨exampleSyncTree, exampleUserTree⟩ exampleProjectSubLock).1.tree.lockfile =
      exampleProjectSubLock ∧
    (doSync ⟨exampleSyncTree, exampleUserTree⟩ exampleProjectSubLock).2.removed =
      [syncPackageB] ∧
    (doSync ⟨exampleSyncTree, exampleUserTree⟩ exampleProjectSubLock).2.added = [] ∧
    syncPackageA.id ∈
      (doSync ⟨exampleSyncTree, exampleUserTree⟩ exampleProjectSubLock).1.tree.dirs ∧
    syncPackageB.id ∈
      (doSync ⟨exampleSyncTree, exampleUserTree⟩ exampleProjectSubLock).1.tree.dirs ∧
    (doSync ⟨exampleSyncTree, exampleUserTree⟩ exampleProjectSubLock).1.userTree =
      exampleUserTree := by
  refine ⟨?_, ?_, ?_, ?_, ?_, ?_⟩ <;> decide

end Lux
